import Mathlib

/-!
Verification of the GFS-style distributed storage subsystem of this
repository (`src/03-gfs/main.go`): a metadata master, chunkservers and a
client. The Go code is shallowly embedded: the Go maps become association
lists (insertion prepends; lookup takes the newest binding, which matches
map-overwrite semantics), HTTP handlers become pure state-transforming
functions returning an HTTP-status-like result, per-replica network
reachability and disk success become explicit boolean-valued parameters,
and wall-clock time becomes an explicit `now : Nat` argument.
-/

namespace GFS

/-- HTTP-level outcomes the Go handlers produce via `http.Error` /
`w.WriteHeader`. -/
inductive HStatus where
  | ok
  | badRequest
  | notFound
  | conflict
  | unavailable
  deriving DecidableEq, Repr

/-- Association-list lookup, newest binding first (models a Go map read). -/
def alookup {α : Type} : List (String × α) → String → Option α
  | [], _ => none
  | (k', v) :: t, k => if k' = k then some v else alookup t k

/-- Association-list update by prepending (models a Go map write: the new
binding shadows any older one). -/
def ainsert {α : Type} (l : List (String × α)) (k : String) (v : α) :
    List (String × α) :=
  (k, v) :: l

/-- `Chunk` from `src/03-gfs/main.go`: master-side metadata of one chunk.
`leaseEnd` holds `now + 60` (seconds) from allocation time. -/
structure Chunk where
  handle : String
  servers : List String
  version : Nat
  size : Nat
  primary : String
  leaseEnd : Nat
  deriving DecidableEq, Repr

/-- `FileInfo` from `src/03-gfs/main.go`: per-file metadata. -/
structure FileInfo where
  name : String
  chunks : List String
  size : Nat
  deriving DecidableEq, Repr

/-- `Master` state: `files` and `chunks` are Go maps, `servers` a slice,
`nextChunk` the handle counter. -/
structure Master where
  files : List (String × FileInfo)
  chunks : List (String × Chunk)
  servers : List String
  nextChunk : Nat
  deriving DecidableEq, Repr

/-- `Chunkserver` state: the in-memory cache `chunks` and the on-disk
directory contents `disk` (one entry per chunk file). Payloads are the Go
byte strings, kept as `String`. -/
structure Chunkserver where
  chunks : List (String × String)
  disk : List (String × String)
  deriving DecidableEq, Repr

def ChunkSize : Nat := 64 * 1024 * 1024

def ReplicationFactor : Nat := 3

/-- `NewMaster`. -/
def newMaster : Master :=
  { files := [], chunks := [], servers := [], nextChunk := 1 }

/-- `NewChunkserver` (the fresh data directory is empty). -/
def newChunkserver : Chunkserver :=
  { chunks := [], disk := [] }

/-- `Master.handleRegisterServer`: rejects an empty address, answers 200
without change when the address is already registered, otherwise appends
it. -/
def registerServer (m : Master) (server : String) : Master × HStatus :=
  if server = "" then (m, .badRequest)
  else if m.servers.contains server then (m, .ok)
  else ({ m with servers := m.servers ++ [server] }, .ok)

/-- `Master.handleCreateFile`: 409 when the path exists, otherwise records
an empty `FileInfo`. -/
def createFile (m : Master) (filename : String) : Master × HStatus :=
  if filename = "" then (m, .badRequest)
  else
    match alookup m.files filename with
    | some _ => (m, .conflict)
    | none =>
        let fi : FileInfo := { name := filename, chunks := [], size := 0 }
        ({ m with files := ainsert m.files filename fi }, .ok)

/-- `Master.handleGetChunks`: read-only; returns, for each handle in the
file's chunk list in order, the chunk-table entry (`none` models the `nil`
pointer the Go code would encode for a dangling handle). -/
def getChunks (m : Master) (filename : String) :
    Master × Except HStatus (List (Option Chunk)) :=
  if filename = "" then (m, .error .badRequest)
  else
    match alookup m.files filename with
    | none => (m, .error .notFound)
    | some file => (m, .ok (file.chunks.map (fun h => alookup m.chunks h)))

/-- `Master.selectServers`: deterministic prefix selection. -/
def selectServers (m : Master) (count : Nat) : List String :=
  if m.servers.length < count then m.servers
  else m.servers.take count

/-- `Master.handleAllocateChunk`: 404 on unknown path; otherwise the
handle counter is incremented BEFORE replica selection, so a 503
(no registered servers) still consumes a handle value. On success the new
`Chunk` is stored and its handle appended to the file's chunk list. -/
def allocateChunk (m : Master) (filename : String) (now : Nat) :
    Master × Except HStatus Chunk :=
  if filename = "" then (m, .error .badRequest)
  else
    match alookup m.files filename with
    | none => (m, .error .notFound)
    | some file =>
        let chunkHandle := "chunk_" ++ Nat.repr m.nextChunk
        let m1 := { m with nextChunk := m.nextChunk + 1 }
        let servers := selectServers m1 ReplicationFactor
        if servers.length = 0 then (m1, .error .unavailable)
        else
          let chunk : Chunk :=
            { handle := chunkHandle, servers := servers, version := 1,
              size := 0, primary := servers.headD "", leaseEnd := now + 60 }
          let file' : FileInfo :=
            { file with chunks := file.chunks ++ [chunkHandle] }
          ({ m1 with
              chunks := ainsert m1.chunks chunkHandle chunk,
              files := ainsert m1.files filename file' },
            .ok chunk)

/-- `Chunkserver.handleWrite` (StoreChunk): updates the in-memory cache
unconditionally; the disk write either succeeds (`diskOk = true`) or is
merely logged (`diskOk = false`); the handler answers 200 either way. -/
def handleWrite (cs : Chunkserver) (chunkHandle data : String)
    (diskOk : Bool) : Chunkserver × HStatus :=
  if chunkHandle = "" then (cs, .badRequest)
  else
    let cs1 := { cs with chunks := ainsert cs.chunks chunkHandle data }
    let cs2 :=
      if diskOk then { cs1 with disk := ainsert cs1.disk chunkHandle data }
      else cs1
    (cs2, .ok)

/-- `Chunkserver.handleRead` (RetrieveChunk): memory first, then disk with
a cache backfill, 404 when absent from both. -/
def handleRead (cs : Chunkserver) (chunkHandle : String) :
    Chunkserver × Except HStatus String :=
  if chunkHandle = "" then (cs, .error .badRequest)
  else
    match alookup cs.chunks chunkHandle with
    | some data => (cs, .ok data)
    | none =>
        match alookup cs.disk chunkHandle with
        | some diskData =>
            ({ cs with chunks := ainsert cs.chunks chunkHandle diskData },
              .ok diskData)
        | none => (cs, .error .notFound)

/-- Whole-system state: the master plus the chunkserver behind each
address. -/
structure System where
  master : Master
  servers : List (String × Chunkserver)
  deriving DecidableEq, Repr

/-- Errors `Client.writeFile` / `Client.readFile` return to their caller. -/
inductive ClientErr where
  | masterError (s : HStatus)
  | nilChunkRecord
  | noServersForChunk
  | transport
  deriving DecidableEq, Repr

/-- One iteration of the replica fan-out loop of `Client.writeFile`: the
POST to `addr` either fails in transport (unreachable address or no server
process behind it) and is skipped, or runs `handleWrite` on that server
with that server's own disk outcome. -/
def wrStep (handle data : String) (reachable diskOk : String → Bool)
    (acc : List (String × Chunkserver)) (addr : String) :
    List (String × Chunkserver) :=
  if reachable addr then
    match alookup acc addr with
    | some cs => ainsert acc addr (handleWrite cs handle data (diskOk addr)).1
    | none => acc
  else acc

/-- The replica fan-out loop of `Client.writeFile` over the whole replica
list. -/
def writeReplicas (servers : List (String × Chunkserver))
    (replicas : List String) (handle data : String)
    (reachable diskOk : String → Bool) : List (String × Chunkserver) :=
  replicas.foldl (wrStep handle data reachable diskOk) servers

/-- `Client.writeFile`: CreateFile (result discarded), AllocateChunk
(failure propagated), then best-effort fan-out to every replica; per-replica
failures are logged and skipped, and the call then returns success. -/
def clientWriteFile (sys : System) (filename data : String) (now : Nat)
    (reachable diskOk : String → Bool) : System × Except ClientErr Unit :=
  let m1 := (createFile sys.master filename).1
  match allocateChunk m1 filename now with
  | (m2, .error s) => ({ sys with master := m2 }, .error (.masterError s))
  | (m2, .ok chunk) =>
      let servers' := writeReplicas sys.servers chunk.servers chunk.handle
        data reachable diskOk
      ({ master := m2, servers := servers' }, .ok ())

/-- `Client.readFile`: GetChunkLocations, empty content (no error) for a
chunkless file, otherwise a read of the first chunk from the first server
of its replica list. The Go code never checks the read response's status
code, so a 404 from the chunkserver comes back as the error page's body
with a nil error. -/
def clientReadFile (sys : System) (filename : String)
    (reachable : String → Bool) : System × Except ClientErr String :=
  match (getChunks sys.master filename).2 with
  | .error s => (sys, .error (.masterError s))
  | .ok chunks =>
      if chunks.length = 0 then (sys, .ok "")
      else
        match chunks.headD none with
        | none => (sys, .error .nilChunkRecord)
        | some chunk =>
            if chunk.servers.length = 0 then (sys, .error .noServersForChunk)
            else
              let addr := chunk.servers.headD ""
              if reachable addr then
                match alookup sys.servers addr with
                | some cs =>
                    match handleRead cs chunk.handle with
                    | (cs', .ok d) =>
                        ({ sys with servers := ainsert sys.servers addr cs' },
                          .ok d)
                    | (cs', .error _) =>
                        ({ sys with servers := ainsert sys.servers addr cs' },
                          .ok "Chunk not found\n")
                | none => (sys, .error .transport)
              else (sys, .error .transport)

/-- `N` sequential `AllocateChunk` calls for the same path, returning the
final master state and the per-call results in call order. -/
def allocateN (m : Master) (filename : String) (now : Nat) :
    Nat → Master × List (Except HStatus Chunk)
  | 0 => (m, [])
  | n + 1 =>
      let r := allocateChunk m filename now
      let rest := allocateN r.1 filename now n
      (rest.1, r.2 :: rest.2)

/-- Decimal value of a digit character. -/
def digitVal (c : Char) : Nat := c.toNat - 48

/-- Decimal valuation of a character list, most significant first, starting
from accumulator `a`. -/
def decValFrom (a : Nat) (l : List Char) : Nat :=
  l.foldl (fun r c => r * 10 + digitVal c) a

/-- The chunk record `handleAllocateChunk` builds when allocation from
state `m` succeeds. -/
def allocatedChunk (m : Master) (now : Nat) : Chunk :=
  { handle := "chunk_" ++ Nat.repr m.nextChunk,
    servers := selectServers m ReplicationFactor,
    version := 1, size := 0,
    primary := (selectServers m ReplicationFactor).headD "",
    leaseEnd := now + 60 }

/-- The master state after a successful allocation from state `m` for a
file whose record is `fi`. -/
def allocatedMaster (m : Master) (p : String) (fi : FileInfo) (now : Nat) :
    Master :=
  let h := "chunk_" ++ Nat.repr m.nextChunk
  { files := ainsert m.files p { fi with chunks := fi.chunks ++ [h] },
    chunks := ainsert m.chunks h (allocatedChunk m now),
    servers := m.servers,
    nextChunk := m.nextChunk + 1 }

/-- The property "server `a` holds `d` under handle `h` in memory". -/
def storedAt (l : List (String × Chunkserver)) (a h d : String) : Prop :=
  ∃ cs, alookup l a = some cs ∧ alookup cs.chunks h = some d

/-- Referential integrity of the master's metadata: every chunk handle
listed by any file record has an entry in the chunk table. -/
def masterInv (m : Master) : Prop :=
  ∀ p fi, alookup m.files p = some fi →
    ∀ h ∈ fi.chunks, (alookup m.chunks h).isSome

/-- One master operation, as a step relation on master states:
RegisterServer, CreateFile, AllocateChunk or GetChunkLocations, with
arbitrary arguments. -/
inductive MStep : Master → Master → Prop where
  | register (m : Master) (a : String) : MStep m (registerServer m a).1
  | create (m : Master) (p : String) : MStep m (createFile m p).1
  | alloc (m : Master) (p : String) (now : Nat) :
      MStep m (allocateChunk m p now).1
  | locate (m : Master) (p : String) : MStep m (getChunks m p).1

/-- The handles `N` consecutive allocations assign starting at counter
value `c`. -/
def handlesFrom (c N : Nat) : List String :=
  (List.range N).map (fun i => "chunk_" ++ Nat.repr (c + i))

/-- The handle of an allocation result (arbitrary for a failed one). -/
def resultHandle (r : Except HStatus Chunk) : String :=
  match r with
  | .ok c => c.handle
  | .error _ => ""

/-- The chunk record of an allocation result, as an optional value. -/
def resultRecord (r : Except HStatus Chunk) : Option Chunk :=
  match r with
  | .ok c => some c
  | .error _ => none

/-- A one-server demonstration deployment: address `s1` is registered with
the master and a chunkserver process runs behind it. -/
def demoSystem : System :=
  { master := (registerServer newMaster "s1").1,
    servers := [("s1", newChunkserver)] }

/-- Boolean oracle answering `true` everywhere: every address reachable,
every disk write succeeding. -/
def always : String → Bool := fun _ => true

/-- Boolean oracle answering `false` everywhere: every replica POST fails
in transport. -/
def never : String → Bool := fun _ => false

/-- The demonstration system after `WriteFile("f", "old")`. -/
def demoAfterW1 : System :=
  (clientWriteFile demoSystem "f" "old" 0 always always).1

/-- The second write, `WriteFile("f", "new")`, on the same path. -/
def demoW2 : System × Except ClientErr Unit :=
  clientWriteFile demoAfterW1 "f" "new" 0 always always

/-- A master with two registered servers and the file `f`, for the
replica-count scenario. -/
def demoTwoServers : Master :=
  (createFile (registerServer (registerServer newMaster "sa").1 "sb").1 "f").1

/-! ### Association-list lemmas -/

theorem alookup_ainsert_self {α : Type} (l : List (String × α)) (k : String)
    (v : α) : alookup (ainsert l k v) k = some v := by
  simp [alookup, ainsert]

theorem alookup_ainsert_ne {α : Type} (l : List (String × α)) (k k' : String)
    (v : α) (h : k ≠ k') : alookup (ainsert l k v) k' = alookup l k' := by
  simp [alookup, ainsert, h]

theorem alookup_ainsert {α : Type} (l : List (String × α)) (k k' : String)
    (v : α) :
    alookup (ainsert l k v) k' = if k = k' then some v else alookup l k' := by
  simp [alookup, ainsert]

/-! ### Decimal representation: `Nat.repr` is injective

`Nat.repr n` is `(Nat.toDigitsCore 10 (n+1) n []).asString`. We recover `n`
from the character list with a decimal valuation, which gives injectivity. -/

theorem decValFrom_cons (a : Nat) (c : Char) (l : List Char) :
    decValFrom a (c :: l) = decValFrom (a * 10 + digitVal c) l := rfl

theorem decValFrom_eq (a : Nat) (l : List Char) :
    decValFrom a l = a * 10 ^ l.length + decValFrom 0 l := by
  induction l generalizing a with
  | nil => simp [decValFrom]
  | cons c t ih =>
      rw [decValFrom_cons, decValFrom_cons, ih, ih (0 * 10 + digitVal c)]
      simp [List.length_cons, pow_succ]
      ring

theorem digitVal_digitChar (d : Nat) (hd : d < 10) :
    digitVal (Nat.digitChar d) = d := by
  interval_cases d <;> rfl

theorem toDigitsCore_succ_ten (f n : Nat) (acc : List Char) :
    Nat.toDigitsCore 10 (f + 1) n acc =
      if n / 10 = 0 then Nat.digitChar (n % 10) :: acc
      else Nat.toDigitsCore 10 f (n / 10) (Nat.digitChar (n % 10) :: acc) :=
  rfl

theorem decValFrom_toDigitsCore (f : Nat) :
    ∀ n acc, n ≤ f →
      decValFrom 0 (Nat.toDigitsCore 10 (f + 1) n acc) =
        n * 10 ^ acc.length + decValFrom 0 acc := by
  induction f with
  | zero =>
      intro n acc hn
      obtain rfl : n = 0 := Nat.le_zero.mp hn
      rw [toDigitsCore_succ_ten, if_pos (by norm_num), decValFrom_cons,
        decValFrom_eq, digitVal_digitChar 0 (by norm_num)]
  | succ f ih =>
      intro n acc hn
      rw [toDigitsCore_succ_ten]
      by_cases h0 : n / 10 = 0
      · have hlt : n < 10 := by omega
        rw [if_pos h0, decValFrom_cons, decValFrom_eq,
          Nat.mod_eq_of_lt hlt, digitVal_digitChar n hlt]
        ring
      · have h10 : 10 ≤ n := by omega
        have hn10 : n / 10 ≤ f := by
          have hlt : n / 10 < n := Nat.div_lt_self (by omega) (by norm_num)
          omega
        rw [if_neg h0, ih (n / 10) (Nat.digitChar (n % 10) :: acc) hn10,
          decValFrom_cons, decValFrom_eq,
          digitVal_digitChar (n % 10) (Nat.mod_lt n (by omega))]
        simp only [Nat.zero_mul, Nat.zero_add]
        have key : n / 10 * 10 ^ (Nat.digitChar (n % 10) :: acc).length +
            n % 10 * 10 ^ acc.length = n * 10 ^ acc.length := by
          rw [List.length_cons, pow_succ]
          have hdm : 10 * (n / 10) + n % 10 = n := Nat.div_add_mod n 10
          calc n / 10 * (10 ^ acc.length * 10) + n % 10 * 10 ^ acc.length
              = (10 * (n / 10) + n % 10) * 10 ^ acc.length := by ring
            _ = n * 10 ^ acc.length := by rw [hdm]
        omega

theorem decValFrom_repr (n : Nat) :
    decValFrom 0 (Nat.repr n).data = n := by
  show decValFrom 0 (Nat.toDigits 10 n).asString.data = n
  have : (Nat.toDigits 10 n).asString.data = Nat.toDigits 10 n := rfl
  rw [this]
  show decValFrom 0 (Nat.toDigitsCore 10 (n + 1) n []) = n
  rw [decValFrom_toDigitsCore n n [] (Nat.le_refl n)]
  simp [decValFrom]

theorem nat_repr_injective : Function.Injective Nat.repr := by
  intro a b h
  have := decValFrom_repr a
  rw [h, decValFrom_repr b] at this
  omega

theorem chunk_handle_injective (a b : Nat)
    (h : "chunk_" ++ Nat.repr a = "chunk_" ++ Nat.repr b) : a = b := by
  apply nat_repr_injective
  have hd : ("chunk_" ++ Nat.repr a).data = ("chunk_" ++ Nat.repr b).data := by
    rw [h]
  simp only [String.data_append] at hd
  have : (Nat.repr a).data = (Nat.repr b).data :=
    List.append_cancel_left hd
  exact String.ext this

theorem chunk_handle_ne_empty (n : Nat) : "chunk_" ++ Nat.repr n ≠ "" := by
  intro h
  have hlen : ("chunk_" ++ Nat.repr n).length = String.length "" := by rw [h]
  rw [String.length_append] at hlen
  have h6 : ("chunk_" : String).length = 6 := rfl
  have h0 : ("" : String).length = 0 := rfl
  rw [h6, h0] at hlen
  omega

/-! ### Characterizations of the master operations -/

theorem selectServers_congr (m m' : Master) (c : Nat)
    (h : m.servers = m'.servers) : selectServers m c = selectServers m' c := by
  simp [selectServers, h]

theorem selectServers_length (m : Master) (c : Nat) :
    (selectServers m c).length = min c m.servers.length := by
  unfold selectServers
  by_cases h : m.servers.length < c
  · rw [if_pos h]
    omega
  · rw [if_neg h, List.length_take]

theorem selectServers_ne_nil (m : Master) (hs : m.servers ≠ []) :
    selectServers m ReplicationFactor ≠ [] := by
  intro h
  have hl := selectServers_length m ReplicationFactor
  rw [h] at hl
  have : m.servers.length ≠ 0 := fun h0 => hs (List.eq_nil_of_length_eq_zero h0)
  simp [ReplicationFactor] at hl
  omega

theorem allocateChunk_ok (m : Master) (p : String) (now : Nat)
    (fi : FileInfo) (hp : p ≠ "") (hf : alookup m.files p = some fi)
    (hs : m.servers ≠ []) :
    allocateChunk m p now = (allocatedMaster m p fi now,
      .ok (allocatedChunk m now)) := by
  unfold allocateChunk
  rw [if_neg hp, hf]
  have hsel : selectServers { m with nextChunk := m.nextChunk + 1 }
      ReplicationFactor = selectServers m ReplicationFactor :=
    selectServers_congr _ _ _ rfl
  simp only [hsel]
  rw [if_neg (by
    intro h
    exact selectServers_ne_nil m hs (List.eq_nil_of_length_eq_zero h))]
  rfl

theorem allocateChunk_unavailable (m : Master) (p : String) (now : Nat)
    (fi : FileInfo) (hp : p ≠ "") (hf : alookup m.files p = some fi)
    (hs : m.servers = []) :
    allocateChunk m p now =
      ({ m with nextChunk := m.nextChunk + 1 }, .error .unavailable) := by
  unfold allocateChunk
  rw [if_neg hp, hf]
  have hsel : selectServers { m with nextChunk := m.nextChunk + 1 }
      ReplicationFactor = [] := by
    simp [selectServers, hs, ReplicationFactor]
  simp only [hsel]
  rfl

/-- `handleWrite` always answers 200 and always updates the in-memory
cache; the `diskOk` flag only decides whether the disk copy changes too. -/
theorem handleWrite_spec (cs : Chunkserver) (h d : String) (dk : Bool)
    (hh : h ≠ "") :
    (handleWrite cs h d dk).2 = .ok ∧
    ((handleWrite cs h d dk).1).chunks = ainsert cs.chunks h d ∧
    ((handleWrite cs h d dk).1).disk =
      (if dk then ainsert cs.disk h d else cs.disk) := by
  unfold handleWrite
  rw [if_neg hh]
  cases dk <;> simp

/-! ### Fan-out fold lemmas -/

theorem wrStep_lookup_other (h d : String) (r dk : String → Bool)
    (acc : List (String × Chunkserver)) (addr a : String)
    (hne : addr ≠ a) :
    alookup (wrStep h d r dk acc addr) a = alookup acc a := by
  unfold wrStep
  by_cases hr : r addr
  · rw [if_pos hr]
    cases hcs : alookup acc addr with
    | none => rfl
    | some cs => rw [alookup_ainsert_ne _ _ _ _ hne]
  · rw [if_neg hr]

theorem wrStep_isSome (h d : String) (r dk : String → Bool)
    (acc : List (String × Chunkserver)) (addr a : String)
    (ha : (alookup acc a).isSome) :
    (alookup (wrStep h d r dk acc addr) a).isSome := by
  unfold wrStep
  by_cases hr : r addr
  · rw [if_pos hr]
    cases hcs : alookup acc addr with
    | none => exact ha
    | some cs =>
        rw [alookup_ainsert]
        by_cases he : addr = a
        · rw [if_pos he]
          rfl
        · rw [if_neg he]
          exact ha
  · rw [if_neg hr]
    exact ha

theorem wrStep_preserves_stored (h d : String) (r dk : String → Bool)
    (acc : List (String × Chunkserver)) (addr a : String) (hh : h ≠ "")
    (hst : storedAt acc a h d) :
    storedAt (wrStep h d r dk acc addr) a h d := by
  by_cases he : addr = a
  · subst he
    unfold wrStep
    by_cases hr : r addr
    · rw [if_pos hr]
      obtain ⟨cs, hcs, hdata⟩ := hst
      rw [hcs]
      refine ⟨(handleWrite cs h d (dk addr)).1, alookup_ainsert_self _ _ _, ?_⟩
      rw [(handleWrite_spec cs h d (dk addr) hh).2.1, alookup_ainsert_self]
    · rw [if_neg hr]
      exact hst
  · rw [show wrStep h d r dk acc addr = _ from rfl] at *
    obtain ⟨cs, hcs, hdata⟩ := hst
    exact ⟨cs, by rw [wrStep_lookup_other h d r dk acc addr a he, hcs], hdata⟩

theorem wrStep_establishes (h d : String) (r dk : String → Bool)
    (acc : List (String × Chunkserver)) (a : String) (hh : h ≠ "")
    (hr : r a = true) (ha : (alookup acc a).isSome) :
    storedAt (wrStep h d r dk acc a) a h d := by
  unfold wrStep
  rw [if_pos hr]
  cases hcs : alookup acc a with
  | none => rw [hcs] at ha; exact absurd ha (by simp)
  | some cs =>
      refine ⟨(handleWrite cs h d (dk a)).1, alookup_ainsert_self _ _ _, ?_⟩
      rw [(handleWrite_spec cs h d (dk a) hh).2.1, alookup_ainsert_self]

theorem foldl_wrStep_isSome (h d : String) (r dk : String → Bool)
    (replicas : List String) (a : String) :
    ∀ acc, (alookup acc a).isSome →
      (alookup (replicas.foldl (wrStep h d r dk) acc) a).isSome := by
  induction replicas with
  | nil => intro acc ha; exact ha
  | cons b t ih =>
      intro acc ha
      exact ih _ (wrStep_isSome h d r dk acc b a ha)

theorem foldl_wrStep_stored (h d : String) (r dk : String → Bool)
    (replicas : List String) (a : String) (hh : h ≠ "") :
    ∀ acc, storedAt acc a h d →
      storedAt (replicas.foldl (wrStep h d r dk) acc) a h d := by
  induction replicas with
  | nil => intro acc ha; exact ha
  | cons b t ih =>
      intro acc ha
      exact ih _ (wrStep_preserves_stored h d r dk acc b a hh ha)

/-- After the fan-out, every reachable replica address that had a server
behind it holds the written data in memory under the chunk's handle. -/
theorem writeReplicas_stores (servers : List (String × Chunkserver))
    (replicas : List String) (h d : String) (r dk : String → Bool)
    (a : String) (hh : h ≠ "") (hmem : a ∈ replicas) (hr : r a = true)
    (hs : (alookup servers a).isSome) :
    storedAt (writeReplicas servers replicas h d r dk) a h d := by
  unfold writeReplicas
  induction replicas generalizing servers with
  | nil => cases hmem
  | cons b t ih =>
      rw [List.foldl_cons]
      rcases List.mem_cons.mp hmem with hab | hat
      · subst hab
        exact foldl_wrStep_stored h d r dk t a hh _
          (wrStep_establishes h d r dk servers a hh hr hs)
      · exact ih _ hat (wrStep_isSome h d r dk servers b a hs)

/-- Addresses whose POST fails in transport are skipped: their server state
is untouched by the fan-out. -/
theorem writeReplicas_skips_unreachable
    (servers : List (String × Chunkserver)) (replicas : List String)
    (h d : String) (r dk : String → Bool) (a : String)
    (hr : r a = false) :
    alookup (writeReplicas servers replicas h d r dk) a =
      alookup servers a := by
  unfold writeReplicas
  induction replicas generalizing servers with
  | nil => rfl
  | cons b t ih =>
      rw [List.foldl_cons, ih]
      by_cases he : b = a
      · subst he
        unfold wrStep
        rw [hr]
        simp
      · exact wrStep_lookup_other h d r dk servers b a he

/-! ### Referential-integrity invariant lemmas -/

theorem alookup_ainsert_isSome {α : Type} (l : List (String × α))
    (k k' : String) (v : α) (h : (alookup l k').isSome) :
    (alookup (ainsert l k v) k').isSome := by
  rw [alookup_ainsert]
  by_cases he : k = k'
  · rw [if_pos he]
    rfl
  · rw [if_neg he]
    exact h

theorem masterInv_newMaster : masterInv newMaster := by
  intro p fi h
  simp [newMaster, alookup] at h

theorem masterInv_register (m : Master) (a : String) (hinv : masterInv m) :
    masterInv (registerServer m a).1 := by
  unfold registerServer
  by_cases ha : a = ""
  · rw [if_pos ha]
    exact hinv
  rw [if_neg ha]
  by_cases hc : m.servers.contains a
  · rw [if_pos hc]
    exact hinv
  · rw [if_neg hc]
    exact hinv

theorem masterInv_create (m : Master) (p : String) (hinv : masterInv m) :
    masterInv (createFile m p).1 := by
  unfold createFile
  by_cases hp : p = ""
  · rw [if_pos hp]
    exact hinv
  rw [if_neg hp]
  cases hf : alookup m.files p with
  | some fi => exact hinv
  | none =>
      intro p' fi' hlook h' hmem
      simp only [alookup_ainsert] at hlook
      by_cases he : p = p'
      · rw [if_pos he] at hlook
        cases hlook
        simp at hmem
      · rw [if_neg he] at hlook
        exact hinv p' fi' hlook h' hmem

theorem masterInv_alloc (m : Master) (p : String) (now : Nat)
    (hinv : masterInv m) : masterInv (allocateChunk m p now).1 := by
  by_cases hp : p = ""
  · have he : allocateChunk m p now = (m, .error .badRequest) := by
      unfold allocateChunk
      rw [if_pos hp]
    rw [he]
    exact hinv
  cases hf : alookup m.files p with
  | none =>
      have he : allocateChunk m p now = (m, .error .notFound) := by
        unfold allocateChunk
        rw [if_neg hp, hf]
      rw [he]
      exact hinv
  | some fi =>
      by_cases hs : m.servers = []
      · rw [allocateChunk_unavailable m p now fi hp hf hs]
        exact hinv
      · rw [allocateChunk_ok m p now fi hp hf hs]
        intro p' fi' hlook h' hmem
        unfold allocatedMaster at hlook ⊢
        simp only at hlook ⊢
        rw [alookup_ainsert] at hlook
        by_cases he : p = p'
        · rw [if_pos he] at hlook
          cases hlook
          rcases List.mem_append.mp hmem with hold | hnew
          · exact alookup_ainsert_isSome _ _ _ _ (hinv p fi hf h' hold)
          · rw [List.mem_singleton.mp hnew, alookup_ainsert_self]
            rfl
        · rw [if_neg he] at hlook
          exact alookup_ainsert_isSome _ _ _ _ (hinv p' fi' hlook h' hmem)

theorem masterInv_locate (m : Master) (p : String) (hinv : masterInv m) :
    masterInv (getChunks m p).1 := by
  unfold getChunks
  by_cases hp : p = ""
  · rw [if_pos hp]
    exact hinv
  rw [if_neg hp]
  cases hf : alookup m.files p with
  | none => exact hinv
  | some fi => exact hinv

theorem masterInv_MStep (m m' : Master) (hinv : masterInv m)
    (hstep : MStep m m') : masterInv m' := by
  cases hstep with
  | register a => exact masterInv_register m a hinv
  | create p => exact masterInv_create m p hinv
  | alloc p now => exact masterInv_alloc m p now hinv
  | locate p => exact masterInv_locate m p hinv

/-! ### Sequential allocation -/

theorem allocatedChunk_congr (m m' : Master) (now : Nat)
    (hs : m.servers = m'.servers) (hn : m.nextChunk = m'.nextChunk) :
    allocatedChunk m now = allocatedChunk m' now := by
  unfold allocatedChunk
  rw [selectServers_congr m m' ReplicationFactor hs, hn]

theorem handlesFrom_succ (c N : Nat) :
    handlesFrom c (N + 1) =
      ("chunk_" ++ Nat.repr c) :: handlesFrom (c + 1) N := by
  unfold handlesFrom
  rw [List.range_succ_eq_map, List.map_cons, List.map_map]
  refine congrArg₂ _ (by rw [Nat.add_zero]) ?_
  apply List.map_congr_left
  intro i _
  show "chunk_" ++ Nat.repr (c + (i + 1)) = "chunk_" ++ Nat.repr (c + 1 + i)
  rw [show c + (i + 1) = c + 1 + i from by omega]

theorem range_map_succ_shift {α : Type} (f : Nat → α) (N : Nat) :
    (List.range (N + 1)).map f =
      f 0 :: (List.range N).map (fun i => f (i + 1)) := by
  rw [List.range_succ_eq_map, List.map_cons, List.map_map]
  rfl

theorem allocateN_spec (p : String) (now : Nat) (hp : p ≠ "") :
    ∀ (N : Nat) (m : Master) (fi : FileInfo),
      alookup m.files p = some fi → m.servers ≠ [] →
      (allocateN m p now N).2 = (List.range N).map
          (fun i => Except.ok
            (allocatedChunk { m with nextChunk := m.nextChunk + i } now)) ∧
      (allocateN m p now N).1.servers = m.servers ∧
      (allocateN m p now N).1.nextChunk = m.nextChunk + N ∧
      alookup (allocateN m p now N).1.files p =
        some { fi with chunks := fi.chunks ++ handlesFrom m.nextChunk N } ∧
      (∀ i, i < N →
        alookup (allocateN m p now N).1.chunks
            ("chunk_" ++ Nat.repr (m.nextChunk + i)) =
          some (allocatedChunk { m with nextChunk := m.nextChunk + i } now)) ∧
      (∀ h', (∀ i, i < N → h' ≠ "chunk_" ++ Nat.repr (m.nextChunk + i)) →
        alookup (allocateN m p now N).1.chunks h' = alookup m.chunks h') := by
  intro N
  induction N with
  | zero =>
      intro m fi hf hs
      refine ⟨rfl, rfl, by simp [allocateN], ?_, ?_, ?_⟩
      · show alookup m.files p = _
        rw [hf]
        simp [handlesFrom]
      · intro i hi
        exact absurd hi (Nat.not_lt_zero i)
      · intro h' _
        rfl
  | succ N ih =>
      intro m fi hf hs
      have hstep : allocateChunk m p now =
          (allocatedMaster m p fi now, .ok (allocatedChunk m now)) :=
        allocateChunk_ok m p now fi hp hf hs
      have hunf : allocateN m p now (N + 1) =
          ((allocateN (allocatedMaster m p fi now) p now N).1,
            Except.ok (allocatedChunk m now) ::
            (allocateN (allocatedMaster m p fi now) p now N).2) := by
        simp only [allocateN, hstep]
      set m1 := allocatedMaster m p fi now with hm1
      set fi1 : FileInfo :=
        { fi with chunks := fi.chunks ++ ["chunk_" ++ Nat.repr m.nextChunk] }
        with hfi1
      have hm1files : alookup m1.files p = some fi1 :=
        alookup_ainsert_self _ _ _
      have hm1chunks : m1.chunks =
          ainsert m.chunks ("chunk_" ++ Nat.repr m.nextChunk)
            (allocatedChunk m now) := rfl
      have hm1srv : m1.servers = m.servers := rfl
      have hm1next : m1.nextChunk = m.nextChunk + 1 := rfl
      obtain ⟨ih1, ih2, ih3, ih4, ih5, ih6⟩ :=
        ih m1 fi1 hm1files (by rw [hm1srv]; exact hs)
      refine ⟨?_, ?_, ?_, ?_, ?_, ?_⟩
      · rw [hunf]
        show Except.ok (allocatedChunk m now) :: (allocateN m1 p now N).2 = _
        rw [ih1, range_map_succ_shift]
        refine congrArg₂ _ ?_ ?_
        · show Except.ok (allocatedChunk m now) = Except.ok
            (allocatedChunk { m with nextChunk := m.nextChunk + 0 } now)
          exact congrArg _ (allocatedChunk_congr _ _ now rfl (Nat.add_zero _).symm)
        · apply List.map_congr_left
          intro i _
          show Except.ok
              (allocatedChunk { m1 with nextChunk := m1.nextChunk + i } now) =
            Except.ok
              (allocatedChunk { m with nextChunk := m.nextChunk + (i + 1) } now)
          refine congrArg _ (allocatedChunk_congr _ _ now hm1srv ?_)
          show m1.nextChunk + i = m.nextChunk + (i + 1)
          rw [hm1next]
          omega
      · rw [hunf]
        show (allocateN m1 p now N).1.servers = m.servers
        rw [ih2, hm1srv]
      · rw [hunf]
        show (allocateN m1 p now N).1.nextChunk = m.nextChunk + (N + 1)
        rw [ih3, hm1next]
        omega
      · rw [hunf]
        show alookup (allocateN m1 p now N).1.files p = _
        rw [ih4, hfi1]
        simp only [handlesFrom_succ, hm1next]
        rw [show ∀ l1 l2 : List String, (fi.chunks ++ l1) ++ l2 =
            fi.chunks ++ (l1 ++ l2) from fun l1 l2 => List.append_assoc _ _ _]
        rfl
      · intro i hi
        rw [hunf]
        show alookup (allocateN m1 p now N).1.chunks _ = _
        match i with
        | 0 =>
            have havoid : ∀ j, j < N →
                ("chunk_" ++ Nat.repr (m.nextChunk + 0)) ≠
                  "chunk_" ++ Nat.repr (m1.nextChunk + j) := by
              intro j _ heq
              have := chunk_handle_injective _ _ heq
              rw [hm1next] at this
              omega
            rw [ih6 _ havoid, Nat.add_zero, hm1chunks, alookup_ainsert_self]
        | j + 1 =>
            have hj : j < N := by omega
            have hrw : m.nextChunk + (j + 1) = m1.nextChunk + j := by
              rw [hm1next]
              omega
            rw [hrw, ih5 j hj]
            exact congrArg _ (allocatedChunk_congr _ _ now hm1srv rfl)
      · intro h' hna
        rw [hunf]
        show alookup (allocateN m1 p now N).1.chunks h' = alookup m.chunks h'
        have hna1 : ∀ j, j < N → h' ≠ "chunk_" ++ Nat.repr (m1.nextChunk + j) := by
          intro j hj
          rw [hm1next, show m.nextChunk + 1 + j = m.nextChunk + (j + 1) from
            by omega]
          exact hna (j + 1) (by omega)
        rw [ih6 h' hna1, hm1chunks]
        exact alookup_ainsert_ne _ _ _ _
          (Ne.symm (by simpa using hna 0 (by omega)))

/-! ### Client-level lemmas -/

theorem createFile_state (m : Master) (p : String) :
    (createFile m p).1.servers = m.servers ∧
    (createFile m p).1.chunks = m.chunks ∧
    (createFile m p).1.nextChunk = m.nextChunk := by
  unfold createFile
  by_cases hp : p = ""
  · rw [if_pos hp]
    exact ⟨rfl, rfl, rfl⟩
  rw [if_neg hp]
  cases hf : alookup m.files p with
  | some fi => exact ⟨rfl, rfl, rfl⟩
  | none => exact ⟨rfl, rfl, rfl⟩

theorem createFile_lookup_fresh (m : Master) (p : String) (hp : p ≠ "")
    (hfresh : alookup m.files p = none ∨
      ∃ fi, alookup m.files p = some fi ∧ fi.chunks = []) :
    ∃ fi', alookup (createFile m p).1.files p = some fi' ∧
      fi'.chunks = [] := by
  rcases hfresh with hnone | ⟨fi, hfi, hc⟩
  · refine ⟨{ name := p, chunks := [], size := 0 }, ?_, rfl⟩
    unfold createFile
    rw [if_neg hp, hnone]
    exact alookup_ainsert_self _ _ _
  · refine ⟨fi, ?_, hc⟩
    unfold createFile
    rw [if_neg hp, hfi]
    exact hfi

theorem clientWriteFile_ok (sys : System) (p d : String) (now : Nat)
    (reachable diskOk : String → Bool) (m2 : Master) (c : Chunk)
    (halloc : allocateChunk (createFile sys.master p).1 p now =
      (m2, .ok c)) :
    clientWriteFile sys p d now reachable diskOk =
      ({ master := m2,
         servers := writeReplicas sys.servers c.servers c.handle d
           reachable diskOk }, .ok ()) := by
  unfold clientWriteFile
  simp only [halloc]

theorem clientReadFile_single (sys : System) (p : String)
    (reachable : String → Bool) (fi : FileInfo) (c : Chunk)
    (cs : Chunkserver) (d : String) (hp : p ≠ "")
    (hfi : alookup sys.master.files p = some fi)
    (hchunks : fi.chunks = [c.handle])
    (hrec : alookup sys.master.chunks c.handle = some c)
    (hsrv : c.servers ≠ [])
    (hr : reachable (c.servers.headD "") = true)
    (hcs : alookup sys.servers (c.servers.headD "") = some cs)
    (hh : c.handle ≠ "")
    (hdata : alookup cs.chunks c.handle = some d) :
    (clientReadFile sys p reachable).2 = .ok d := by
  have hg : (getChunks sys.master p).2 = .ok [some c] := by
    unfold getChunks
    rw [if_neg hp, hfi]
    show Except.ok (fi.chunks.map _) = _
    rw [hchunks, List.map_cons, List.map_nil, hrec]
  have hread : handleRead cs c.handle = (cs, .ok d) := by
    unfold handleRead
    rw [if_neg hh, hdata]
  unfold clientReadFile
  rw [hg]
  cases hsv : c.servers with
  | nil => exact absurd hsv hsrv
  | cons a t =>
      rw [hsv] at hr hcs
      simp only [List.headD_cons] at hr hcs
      simp [hsv, hr, hcs, hread]

theorem allocateChunk_handle (m : Master) (p : String) (now : Nat)
    (c : Chunk) (hok : (allocateChunk m p now).2 = .ok c) :
    c.handle = "chunk_" ++ Nat.repr m.nextChunk := by
  by_cases hp : p = ""
  · have he : allocateChunk m p now = (m, .error .badRequest) := by
      unfold allocateChunk
      rw [if_pos hp]
    rw [he] at hok
    cases hok
  cases hf : alookup m.files p with
  | none =>
      have he : allocateChunk m p now = (m, .error .notFound) := by
        unfold allocateChunk
        rw [if_neg hp, hf]
      rw [he] at hok
      cases hok
  | some fi =>
      by_cases hs : m.servers = []
      · rw [allocateChunk_unavailable m p now fi hp hf hs] at hok
        cases hok
      · rw [allocateChunk_ok m p now fi hp hf hs] at hok
        cases hok
        rfl

/-! ### Claims -/

/-- Claim C2 (confirmed): once the metadata operations of `WriteFile`
succeed (CreateFile followed by a successful AllocateChunk), the call
returns success to its caller for every possible pattern of per-replica
transport failures and disk failures, and each failed replica is simply
skipped: its chunkserver state is untouched. -/
theorem C2_writeFile_bestEffort (sys : System) (p d : String) (now : Nat)
    (reachable diskOk : String → Bool) (m2 : Master) (c : Chunk)
    (halloc : allocateChunk (createFile sys.master p).1 p now =
      (m2, .ok c)) :
    (clientWriteFile sys p d now reachable diskOk).2 = .ok () ∧
    (∀ a, reachable a = false →
      alookup (clientWriteFile sys p d now reachable diskOk).1.servers a =
        alookup sys.servers a) := by
  rw [clientWriteFile_ok sys p d now reachable diskOk m2 c halloc]
  exact ⟨rfl, fun a hr =>
    writeReplicas_skips_unreachable sys.servers c.servers c.handle d
      reachable diskOk a hr⟩

/-- Witness for C2: a system with one registered server and every replica
POST failing in transport; the write still reports success and the server
state is untouched. -/
theorem C2_witness :
    (clientWriteFile demoSystem "f" "d" 0 never never).2 = .ok () ∧
    (∀ a, never a = false →
      alookup (clientWriteFile demoSystem "f" "d" 0 never never).1.servers
          a = alookup demoSystem.servers a) :=
  C2_writeFile_bestEffort demoSystem "f" "d" 0 never never
    (allocateChunk (createFile demoSystem.master "f").1 "f" 0).1
    { handle := "chunk_1", servers := ["s1"], version := 1, size := 0,
      primary := "s1", leaseEnd := 60 } rfl

/-- Claim C3 (confirmed): for a known path, AllocateChunk fails with
Unavailable when no server is registered, and otherwise returns a chunk
whose replica list has length `min ReplicationFactor |servers|`. -/
theorem C3_allocate_replicaCount (m : Master) (p : String) (now : Nat)
    (fi : FileInfo) (hp : p ≠ "") (hf : alookup m.files p = some fi) :
    (m.servers = [] →
      (allocateChunk m p now).2 = .error .unavailable) ∧
    (m.servers ≠ [] → ∃ c, (allocateChunk m p now).2 = .ok c ∧
      c.servers.length = min ReplicationFactor m.servers.length) := by
  constructor
  · intro hs
    rw [allocateChunk_unavailable m p now fi hp hf hs]
  · intro hs
    refine ⟨allocatedChunk m now,
      by rw [allocateChunk_ok m p now fi hp hf hs], ?_⟩
    show (selectServers m ReplicationFactor).length = _
    exact selectServers_length m ReplicationFactor

/-- Witness for C3: with ReplicationFactor 3 and exactly two registered
servers, allocation succeeds with a replica list of length two. -/
theorem C3_witness :
    (demoTwoServers.servers = [] →
      (allocateChunk demoTwoServers "f" 0).2 = .error .unavailable) ∧
    (demoTwoServers.servers ≠ [] →
      ∃ c, (allocateChunk demoTwoServers "f" 0).2 = .ok c ∧
        c.servers.length =
          min ReplicationFactor demoTwoServers.servers.length) :=
  C3_allocate_replicaCount demoTwoServers "f" 0
    { name := "f", chunks := [], size := 0 } (by decide) (by decide)

/-- Claim C5 (confirmed): RegisterServer is idempotent — both calls answer
200 and the second call leaves the master state exactly as after the
first. -/
theorem C5_register_idempotent (m : Master) (a : String) (ha : a ≠ "") :
    (registerServer m a).2 = .ok ∧
    (registerServer (registerServer m a).1 a).2 = .ok ∧
    (registerServer (registerServer m a).1 a).1 = (registerServer m a).1 := by
  by_cases hc : m.servers.contains a
  · have h1 : registerServer m a = (m, .ok) := by
      unfold registerServer
      rw [if_neg ha, if_pos hc]
    refine ⟨by rw [h1], ?_, ?_⟩
    · rw [h1]
      show (registerServer m a).2 = .ok
      rw [h1]
    · rw [h1]
      show (registerServer m a).1 = m
      rw [h1]
  · have h1 : registerServer m a =
        ({ m with servers := m.servers ++ [a] }, .ok) := by
      unfold registerServer
      rw [if_neg ha, if_neg hc]
    have hc2 : ({ m with servers := m.servers ++ [a] } : Master).servers.contains
        a = true := by
      simp
    have h2 : registerServer { m with servers := m.servers ++ [a] } a =
        ({ m with servers := m.servers ++ [a] }, .ok) := by
      unfold registerServer
      rw [if_neg ha, if_pos hc2]
    refine ⟨by rw [h1], ?_, ?_⟩
    · rw [h1]
      show (registerServer { m with servers := m.servers ++ [a] } a).2 = .ok
      rw [h2]
    · rw [h1]
      show (registerServer { m with servers := m.servers ++ [a] } a).1 =
        { m with servers := m.servers ++ [a] }
      rw [h2]

/-- Witness for C5: registering `s1` twice on a fresh master. -/
theorem C5_witness :
    (registerServer newMaster "s1").2 = .ok ∧
    (registerServer (registerServer newMaster "s1").1 "s1").2 = .ok ∧
    (registerServer (registerServer newMaster "s1").1 "s1").1 =
      (registerServer newMaster "s1").1 :=
  C5_register_idempotent newMaster "s1" (by decide)

/-- Claim C6 (confirmed): a StoreChunk whose disk write fails still
answers 200, still updates the in-memory cache, and leaves the disk
contents unchanged; the failure is never surfaced on the store path. -/
theorem C6_store_diskFailure (cs : Chunkserver) (h d : String)
    (hh : h ≠ "") :
    (handleWrite cs h d false).2 = .ok ∧
    alookup ((handleWrite cs h d false).1).chunks h = some d ∧
    ((handleWrite cs h d false).1).disk = cs.disk := by
  obtain ⟨h1, h2, h3⟩ := handleWrite_spec cs h d false hh
  refine ⟨h1, ?_, ?_⟩
  · rw [h2]
    exact alookup_ainsert_self _ _ _
  · rw [h3]
    rfl

/-- Witness for C6: storing a chunk on a fresh server with the disk
failing. -/
theorem C6_witness :
    (handleWrite newChunkserver "chunk_1" "x" false).2 = .ok ∧
    alookup ((handleWrite newChunkserver "chunk_1" "x" false).1).chunks
        "chunk_1" = some "x" ∧
    ((handleWrite newChunkserver "chunk_1" "x" false).1).disk =
      newChunkserver.disk :=
  C6_store_diskFailure newChunkserver "chunk_1" "x" (by decide)

/-- Claim C7 (confirmed): ReadFile on a path whose file record exists but
has no allocated chunks returns empty content and no error, leaving the
system unchanged. -/
theorem C7_read_empty (sys : System) (p : String)
    (reachable : String → Bool) (fi : FileInfo) (hp : p ≠ "")
    (hf : alookup sys.master.files p = some fi) (hc : fi.chunks = []) :
    clientReadFile sys p reachable = (sys, .ok "") := by
  have hg : (getChunks sys.master p).2 = .ok [] := by
    unfold getChunks
    rw [if_neg hp, hf]
    show Except.ok (fi.chunks.map _) = _
    rw [hc]
    rfl
  unfold clientReadFile
  rw [hg]
  rfl

/-- Witness for C7: reading a freshly created file with no chunks. -/
theorem C7_witness :
    clientReadFile { master := (createFile newMaster "g").1, servers := [] }
        "g" always =
      ({ master := (createFile newMaster "g").1, servers := [] }, .ok "") :=
  C7_read_empty _ "g" always { name := "g", chunks := [], size := 0 }
    (by decide) (by decide) rfl

/-- Claim C8 (confirmed): referential integrity — in the initial master
state and after any sequence of RegisterServer, CreateFile, AllocateChunk
and GetChunkLocations operations, every chunk handle referenced by a file
record has an entry in the chunk table. -/
theorem C8_referential_integrity :
    masterInv newMaster ∧
    ∀ m m', masterInv m → MStep m m' → masterInv m' :=
  ⟨masterInv_newMaster, masterInv_MStep⟩

/-- Witness for C8: the invariant after creating a file and allocating a
chunk on a one-server master. -/
theorem C8_witness :
    masterInv (allocateChunk
      (createFile (registerServer newMaster "s1").1 "f").1 "f" 0).1 :=
  C8_referential_integrity.2 _ _
    (C8_referential_integrity.2 _ _
      (C8_referential_integrity.2 _ _ C8_referential_integrity.1
        (MStep.register newMaster "s1"))
      (MStep.create (registerServer newMaster "s1").1 "f"))
    (MStep.alloc (createFile (registerServer newMaster "s1").1 "f").1 "f" 0)

/-- Claim C10 (confirmed): when AllocateChunk fails with Unavailable, the
file and chunk tables and the server list are unchanged but the next-chunk
counter has been incremented, so the next successful allocation (from any
state carrying that counter value) is assigned the handle for counter
value `nextChunk + 1` and skips the handle for `nextChunk`. -/
theorem C10_failedAlloc_consumesHandle (m : Master) (p : String)
    (now : Nat) (fi : FileInfo) (hp : p ≠ "")
    (hf : alookup m.files p = some fi) (hs : m.servers = []) :
    allocateChunk m p now =
      ({ m with nextChunk := m.nextChunk + 1 }, .error .unavailable) ∧
    (∀ m2 p2 now2 c, m2.nextChunk = m.nextChunk + 1 →
      (allocateChunk m2 p2 now2).2 = .ok c →
      c.handle = "chunk_" ++ Nat.repr (m.nextChunk + 1) ∧
      c.handle ≠ "chunk_" ++ Nat.repr m.nextChunk) := by
  refine ⟨allocateChunk_unavailable m p now fi hp hf hs, ?_⟩
  intro m2 p2 now2 c hn hok
  have hh := allocateChunk_handle m2 p2 now2 c hok
  rw [hn] at hh
  refine ⟨hh, ?_⟩
  rw [hh]
  intro heq
  have := chunk_handle_injective _ _ heq
  omega

/-- Witness for C10: a failed allocation on a fresh one-file master leaves
the tables unchanged but consumes handle value 1. -/
theorem C10_witness :
    allocateChunk (createFile newMaster "f").1 "f" 0 =
      ({ (createFile newMaster "f").1 with
          nextChunk := (createFile newMaster "f").1.nextChunk + 1 },
        .error .unavailable) ∧
    (∀ m2 p2 now2 c,
      m2.nextChunk = (createFile newMaster "f").1.nextChunk + 1 →
      (allocateChunk m2 p2 now2).2 = .ok c →
      c.handle = "chunk_" ++
        Nat.repr ((createFile newMaster "f").1.nextChunk + 1) ∧
      c.handle ≠ "chunk_" ++
        Nat.repr (createFile newMaster "f").1.nextChunk) :=
  C10_failedAlloc_consumesHandle (createFile newMaster "f").1 "f" 0
    { name := "f", chunks := [], size := 0 } (by decide) (by decide) rfl

/-- Claim C1 (corrected): the write/read round trip as claimed fails for a
path that already has chunks, because `ReadFile` always reads the FIRST
chunk while each `WriteFile` appends a new one; it holds when the write
allocates the file's first chunk. This is the amended statement: if the
path has no previously allocated chunks, every selected replica address is
reachable with a chunkserver behind it and its disk write succeeds, then
`WriteFile(p, d)` completes and an immediately following `ReadFile(p)`
returns exactly `d`. -/
theorem C1_roundTrip_firstChunk (sys : System) (p d : String) (now : Nat)
    (reachable diskOk : String → Bool) (hp : p ≠ "")
    (hfresh : alookup sys.master.files p = none ∨
      ∃ fi, alookup sys.master.files p = some fi ∧ fi.chunks = [])
    (hs : sys.master.servers ≠ [])
    (hreach : ∀ a ∈ selectServers sys.master ReplicationFactor,
      reachable a = true)
    (hsrv : ∀ a ∈ selectServers sys.master ReplicationFactor,
      (alookup sys.servers a).isSome)
    (_hdisk : ∀ a ∈ selectServers sys.master ReplicationFactor,
      diskOk a = true) :
    (clientWriteFile sys p d now reachable diskOk).2 = .ok () ∧
    (clientReadFile (clientWriteFile sys p d now reachable diskOk).1 p
        reachable).2 = .ok d := by
  obtain ⟨fi', hfi', hchunks'⟩ :=
    createFile_lookup_fresh sys.master p hp hfresh
  have hsx : (createFile sys.master p).1.servers = sys.master.servers :=
    (createFile_state sys.master p).1
  have hs1 : (createFile sys.master p).1.servers ≠ [] := by
    rw [hsx]
    exact hs
  have halloc :=
    allocateChunk_ok (createFile sys.master p).1 p now fi' hp hfi' hs1
  have hw := clientWriteFile_ok sys p d now reachable diskOk _ _ halloc
  rw [hw]
  refine ⟨rfl, ?_⟩
  have hsel : (allocatedChunk (createFile sys.master p).1 now).servers =
      selectServers sys.master ReplicationFactor := by
    show selectServers (createFile sys.master p).1 ReplicationFactor = _
    exact selectServers_congr _ _ _ hsx
  have hcsrv : (allocatedChunk (createFile sys.master p).1 now).servers ≠
      [] := by
    rw [hsel]
    exact selectServers_ne_nil sys.master hs
  have haddr :
      (allocatedChunk (createFile sys.master p).1 now).servers.headD "" ∈
        (allocatedChunk (createFile sys.master p).1 now).servers := by
    cases hv : (allocatedChunk (createFile sys.master p).1 now).servers with
    | nil => exact absurd hv hcsrv
    | cons a t => simp
  have haddr' :
      (allocatedChunk (createFile sys.master p).1 now).servers.headD "" ∈
        selectServers sys.master ReplicationFactor := by
    rw [← hsel]
    exact haddr
  have hh : (allocatedChunk (createFile sys.master p).1 now).handle ≠ "" :=
    chunk_handle_ne_empty (createFile sys.master p).1.nextChunk
  obtain ⟨cs, hcs, hdata⟩ := writeReplicas_stores sys.servers
    (allocatedChunk (createFile sys.master p).1 now).servers
    (allocatedChunk (createFile sys.master p).1 now).handle d reachable
    diskOk ((allocatedChunk (createFile sys.master p).1 now).servers.headD "")
    hh haddr (hreach _ haddr') (hsrv _ haddr')
  exact clientReadFile_single _ p reachable
    { fi' with chunks := fi'.chunks ++
        [(allocatedChunk (createFile sys.master p).1 now).handle] }
    (allocatedChunk (createFile sys.master p).1 now) cs d hp
    (alookup_ainsert_self _ _ _)
    (by simp [hchunks'])
    (alookup_ainsert_self _ _ _)
    hcsrv (hreach _ haddr') hcs hh hdata

/-- Witness for C1 (amended): a fresh file on the one-server demo system
round-trips its data. -/
theorem C1_witness :
    (clientWriteFile demoSystem "f" "hello" 0 always always).2 = .ok () ∧
    (clientReadFile (clientWriteFile demoSystem "f" "hello" 0 always
        always).1 "f" always).2 = .ok "hello" :=
  C1_roundTrip_firstChunk demoSystem "f" "hello" 0 always always
    (by decide) (Or.inl (by decide)) (by decide) (by decide) (by decide)
    (by decide)

/-- Counterexample to C1 as stated: on the one-server demo system, write
`"old"` to `f`, then write `"new"` to `f`. The second write completes
successfully, every selected replica is reachable and every disk write
succeeds (`always`), yet the immediately following read returns `"old"` —
the first chunk's data — not `"new"`. -/
theorem C1_counterexample :
    demoW2.2 = .ok () ∧
    (clientReadFile demoW2.1 "f" always).2 = .ok "old" ∧
    (clientReadFile demoW2.1 "f" always).2 ≠ .ok "new" := by
  refine ⟨rfl, rfl, ?_⟩
  intro h
  rw [show (clientReadFile demoW2.1 "f" always).2 = Except.ok "old" from
    rfl] at h
  injection h with h'
  exact absurd h' (by decide)

/-- Claim C4 (confirmed): creating a path and then issuing `N` sequential
AllocateChunk calls yields `N` successes with pairwise-distinct handles,
and GetChunkLocations afterwards returns exactly those chunk records in
allocation order. -/
theorem C4_allocateN_distinct_ordered (m : Master) (p : String)
    (now N : Nat) (hp : p ≠ "") (hnew : alookup m.files p = none)
    (hs : m.servers ≠ []) :
    (∀ r ∈ (allocateN (createFile m p).1 p now N).2,
      ∃ c, r = Except.ok c) ∧
    ((allocateN (createFile m p).1 p now N).2.map resultHandle).Nodup ∧
    (getChunks (allocateN (createFile m p).1 p now N).1 p).2 =
      .ok ((allocateN (createFile m p).1 p now N).2.map resultRecord) := by
  have hfi : alookup (createFile m p).1.files p =
      some { name := p, chunks := [], size := 0 } := by
    unfold createFile
    rw [if_neg hp, hnew]
    exact alookup_ainsert_self _ _ _
  have hsrv : (createFile m p).1.servers ≠ [] := by
    rw [(createFile_state m p).1]
    exact hs
  obtain ⟨h1, h2, h3, h4, h5, h6⟩ :=
    allocateN_spec p now hp N (createFile m p).1
      { name := p, chunks := [], size := 0 } hfi hsrv
  refine ⟨?_, ?_, ?_⟩
  · rw [h1]
    intro r hr
    rw [List.mem_map] at hr
    obtain ⟨i, _, rfl⟩ := hr
    exact ⟨_, rfl⟩
  · rw [h1, List.map_map]
    refine List.Nodup.map ?_ (List.nodup_range N)
    intro i j hij
    have hij' : "chunk_" ++ Nat.repr ((createFile m p).1.nextChunk + i) =
        "chunk_" ++ Nat.repr ((createFile m p).1.nextChunk + j) := hij
    have := chunk_handle_injective _ _ hij'
    omega
  · unfold getChunks
    rw [if_neg hp, h4]
    show Except.ok ((handlesFrom (createFile m p).1.nextChunk N).map
        (fun h => alookup (allocateN (createFile m p).1 p now N).1.chunks
          h)) = _
    rw [h1, List.map_map]
    unfold handlesFrom
    rw [List.map_map]
    apply congrArg
    apply List.map_congr_left
    intro i hi
    have hi' := List.mem_range.mp hi
    show alookup (allocateN (createFile m p).1 p now N).1.chunks
        ("chunk_" ++ Nat.repr ((createFile m p).1.nextChunk + i)) =
      resultRecord (Except.ok (allocatedChunk
        { (createFile m p).1 with
            nextChunk := (createFile m p).1.nextChunk + i } now))
    rw [h5 i hi']
    rfl

/-- Witness for C4: three sequential allocations for a fresh file on a
two-server master. -/
theorem C4_witness :
    (∀ r ∈ (allocateN (createFile
        (registerServer (registerServer newMaster "sa").1 "sb").1 "f").1
        "f" 0 3).2, ∃ c, r = Except.ok c) ∧
    ((allocateN (createFile
        (registerServer (registerServer newMaster "sa").1 "sb").1 "f").1
        "f" 0 3).2.map resultHandle).Nodup ∧
    (getChunks (allocateN (createFile
        (registerServer (registerServer newMaster "sa").1 "sb").1 "f").1
        "f" 0 3).1 "f").2 =
      .ok ((allocateN (createFile
        (registerServer (registerServer newMaster "sa").1 "sb").1 "f").1
        "f" 0 3).2.map resultRecord) :=
  C4_allocateN_distinct_ordered
    (registerServer (registerServer newMaster "sa").1 "sb").1 "f" 0 3
    (by decide) (by decide) (by decide)

end GFS
